import Mathlib

/-!
Verification of the goki/ki value-conversion library (packages `kit` and
`bools`, plus the `kit.Type` serialization wrapper) against its
natural-language specification.

The Go source is shallowly embedded: the universe of dynamic values that the
conversion engine can receive is the inductive type `kit.GoVal`; each Go
function becomes a Lean function over that universe.  Go runtime panics
(nil-pointer dereference in the fast-path type switches,
`reflect.Value.Type` on the zero Value) are made explicit through
`kit.GoResult`.  Machine floats are modelled as exact rationals, and the Go
standard-library `strconv` formatting/parsing routines are modelled at the
level of their documented contracts (exact decimal-scientific literals,
see the doc comments on the individual definitions below).
-/

namespace strconv

/-- Decimal digit character, written as an explicit table so that facts about
single digits close by `decide`.  Models the digit emission inside
`strconv.FormatInt`/`FormatUint`. -/
def digitChar : Nat → Char
  | 0 => '0'
  | 1 => '1'
  | 2 => '2'
  | 3 => '3'
  | 4 => '4'
  | 5 => '5'
  | 6 => '6'
  | 7 => '7'
  | 8 => '8'
  | 9 => '9'
  | _ => '*'

/-- Fuel-driven digit emission (structural recursion, so that the kernel can
evaluate it inside `decide`); `natDigits` supplies sufficient fuel. -/
def natDigitsF : Nat → Nat → List Char
  | 0, _ => []
  | f + 1, n =>
    if n < 10 then [digitChar n]
    else natDigitsF f (n / 10) ++ [digitChar (n % 10)]

/-- Decimal digit list of a natural number, most significant digit first.
Models `strconv.FormatUint(n, 10)`. -/
def natDigits (n : Nat) : List Char := natDigitsF (n + 1) n

/-- Decimal string of a natural number. -/
def natStr (n : Nat) : String := String.mk (natDigits n)

/-- Character list of `strconv.FormatInt(n, 10)`. -/
def intChars (n : Int) : List Char :=
  if n < 0 then '-' :: natDigits n.natAbs else natDigits n.natAbs

/-- Decimal string of an integer; models `strconv.FormatInt(n, 10)`. -/
def intStr (n : Int) : String := String.mk (intChars n)

/-- Numeric value of a decimal digit character. -/
def dVal (c : Char) : Nat := c.toNat - 48

/-- Recognizer for ASCII decimal digits (kept on `Char.toNat` so all
arithmetic happens in `Nat`). -/
def isDig (c : Char) : Bool := 48 ≤ c.toNat && c.toNat ≤ 57

/-- Value of a most-significant-first decimal digit list. -/
def digitsVal (ds : List Char) : Nat :=
  ds.foldl (fun a c => a * 10 + dVal c) 0

/-- ASCII lower-casing on code points; models `lower(c) = c | ('x' - 'X')`
from `strconv/atoi.go`. -/
def lowN (c : Char) : Nat := c.toNat ||| 32

/-- Digit value in an arbitrary base, per the digit-decoding switch of
`strconv.ParseUint`: ASCII digits, then letters (any letter is decoded, the
base bound is checked by the caller). -/
def digVal (c : Char) : Option Nat :=
  if 48 ≤ c.toNat ∧ c.toNat ≤ 57 then some (c.toNat - 48)
  else if 97 ≤ lowN c ∧ lowN c ≤ 122 then some (lowN c - 97 + 10)
  else none

/-- Base detection of `strconv.ParseUint` for `base == 0`: `0b`/`0o`/`0x`
prefixes (needing at least one further character), a bare leading `0`
selecting octal, decimal otherwise.  Returns the base and the remaining
characters. -/
def detectBase (cs : List Char) : Nat × List Char :=
  match cs with
  | c :: rest =>
    if c = '0' then
      match rest with
      | c2 :: rest2 =>
        if rest2 ≠ [] then
          if lowN c2 = 98 then (2, rest2)
          else if lowN c2 = 111 then (8, rest2)
          else if lowN c2 = 120 then (16, rest2)
          else (8, rest)
        else (8, rest)
      | [] => (8, [])
    else (10, cs)
  | [] => (10, [])

/-- Digit-accumulation loop of `strconv.ParseUint` with `base0 = true`:
underscores are skipped (and flagged for later validation), any other
non-digit or digit at or above the base is a syntax error.  The accumulator
is an unbounded `Nat`; the 64-bit range check is applied by the caller,
which at the `Option` level coincides with Go's in-loop cutoff checks. -/
def puLoop (base : Nat) : List Char → Nat → Bool → Option (Nat × Bool)
  | [], n, u => some (n, u)
  | c :: cs, n, u =>
    if c = '_' then puLoop base cs n true
    else match digVal c with
      | none => none
      | some d => if d ≥ base then none else puLoop base cs (n * base + d) u

/-- State-machine loop of `strconv`'s `underscoreOK`: `saw` is `'0'` after a
digit or base prefix, `'_'` after an underscore, `'!'` after anything else,
`'^'` at the start. -/
def uOKLoop (hex : Bool) : List Char → Char → Bool
  | [], saw => saw ≠ '_'
  | c :: cs, saw =>
    if (48 ≤ c.toNat ∧ c.toNat ≤ 57) ∨ (hex ∧ 97 ≤ lowN c ∧ lowN c ≤ 102) then
      uOKLoop hex cs '0'
    else if c = '_' then saw = '0' && uOKLoop hex cs '_'
    else saw ≠ '_' && uOKLoop hex cs '!'

/-- Models `strconv`'s `underscoreOK`: underscores must sit between a base
prefix or digit and a digit. -/
def uOK (cs : List Char) : Bool :=
  let cs1 := match cs with
    | c :: r => if c = '-' ∨ c = '+' then r else cs
    | [] => cs
  match cs1 with
  | '0' :: c2 :: rest =>
    if lowN c2 = 98 ∨ lowN c2 = 111 ∨ lowN c2 = 120 then
      uOKLoop (lowN c2 = 120) rest '0'
    else uOKLoop false cs1 '^'
  | _ => uOKLoop false cs1 '^'

/-- Models `strconv.ParseUint(s, 0, 64)` on character lists, returning `none`
for both syntax and range errors (the two are not distinguished by any
caller in this code base: `ToInt` maps any error to failure). -/
def parseUintB0 (cs : List Char) : Option Nat :=
  if cs = [] then none
  else
    let bs := detectBase cs
    match puLoop bs.1 bs.2 0 false with
    | none => none
    | some (n, sawU) =>
      if n > 2 ^ 64 - 1 then none
      else if sawU && !uOK cs then none
      else some n

/-- Sign splitting step of `strconv.ParseInt`. -/
def splitSign (cs : List Char) : Bool × List Char :=
  match cs with
  | c :: r => if c = '+' then (false, r) else if c = '-' then (true, r) else (false, cs)
  | [] => (false, [])

/-- Models `strconv.ParseInt(s, 0, 64)` on character lists: optional sign,
then `ParseUint`, then the signed 64-bit range check.  `none` stands for any
non-nil error (syntax or range). -/
def parseIntB0 (cs : List Char) : Option Int :=
  if cs = [] then none
  else
    let sg := splitSign cs
    match parseUintB0 sg.2 with
    | none => none
    | some un =>
      if !sg.1 ∧ un ≥ 2 ^ 63 then none
      else if sg.1 ∧ un > 2 ^ 63 then none
      else if sg.1 then some (-(un : Int)) else some (un : Int)

/-- Models `strconv.ParseInt(s, 0, 64)` on strings. -/
def ParseInt (s : String) : Option Int := parseIntB0 s.data

/-- Models `strconv.ParseBool`: exactly the twelve canonical literals are
accepted. -/
def ParseBool (s : String) : Option Bool :=
  if s = "1" ∨ s = "t" ∨ s = "T" ∨ s = "true" ∨ s = "TRUE" ∨ s = "True" then some true
  else if s = "0" ∨ s = "f" ∨ s = "F" ∨ s = "false" ∨ s = "FALSE" ∨ s = "False" then some false
  else none

/-- Models `strconv.FormatBool`. -/
def FormatBool (b : Bool) : String := if b then "true" else "false"

/-- Character list emitted for a float.  Modelled from the spec: machine
floats are embedded as exact rationals, and `strconv.FormatFloat(v, 'G', -1,
bitSize)` is modelled at its contract level — it produces a
decimal-scientific literal denoting exactly `v` (Go guarantees the shortest
such literal; this model emits `num*10^den/den` scaled under the exponent
`-den`, which denotes the same value exactly whenever the denominator
divides a power of ten, as every binary-float denominator does). -/
def floatChars (q : Rat) : List Char :=
  intChars (q.num * (((10 ^ q.den) / q.den : Nat) : Int)) ++ ('E' :: '-' :: natDigits q.den)

/-- String form of the modelled float formatting. -/
def formatFloatShortest (q : Rat) : String := String.mk (floatChars q)

/-- Modelled from the spec: decimal/scientific literal parsing of
`strconv.ParseFloat` (sign, integer digits, optional fraction, optional
exponent), evaluated exactly over the rationals.  Hexadecimal floats,
`Inf`/`NaN` literals, digit-separating underscores and overflow rounding are
outside the model (no claim exercises them). -/
def fracSplit (cs : List Char) : List Char × List Char :=
  match cs with
  | '.' :: r => (r.takeWhile isDig, r.dropWhile isDig)
  | r => ([], r)

def parseFloatChars (cs : List Char) : Option Rat :=
  let sg := splitSign cs
  let ip := sg.2.takeWhile isDig
  let fpr := fracSplit (sg.2.dropWhile isDig)
  if ip.isEmpty && fpr.1.isEmpty then none
  else
    let mag : Int := (digitsVal ip * 10 ^ fpr.1.length + digitsVal fpr.1 : Nat)
    let mant : Int := if sg.1 then -mag else mag
    match fpr.2 with
    | [] => some ((mant : Rat) / 10 ^ fpr.1.length)
    | e :: r =>
      if e = 'e' ∨ e = 'E' then
        let esg := splitSign r
        let ed := esg.2.takeWhile isDig
        if ed.isEmpty || !(esg.2.dropWhile isDig).isEmpty then none
        else
          let ev := digitsVal ed
          if esg.1 then some ((mant : Rat) / 10 ^ (fpr.1.length + ev))
          else some ((mant : Rat) * 10 ^ ev / 10 ^ fpr.1.length)
      else none

/-- Models `strconv.ParseFloat` on strings (both bit sizes; the model is
exact, see `parseFloatChars`). -/
def ParseFloat (s : String) : Option Rat := parseFloatChars s.data

/-- A single lower-case hexadecimal digit character. -/
def hexDigitChar (n : Nat) : Char :=
  if n < 10 then digitChar n else
    match n with
    | 10 => 'a' | 11 => 'b' | 12 => 'c' | 13 => 'd' | 14 => 'e' | _ => 'f'

/-- Fuel-driven hexadecimal digit emission (structural recursion). -/
def hexDigitsF : Nat → Nat → List Char
  | 0, _ => []
  | f + 1, n =>
    if n < 16 then [hexDigitChar n]
    else hexDigitsF f (n / 16) ++ [hexDigitChar (n % 16)]

/-- Hexadecimal digit list of a natural number (lower case). -/
def hexDigits (n : Nat) : List Char := hexDigitsF (n + 1) n

/-- Models `fmt.Sprintf("%#x", n)` for an unsigned value: `0x` followed by
lower-case hexadecimal digits. -/
def hex0x (n : Nat) : String := String.mk ('0' :: 'x' :: hexDigits n)

end strconv

namespace kit

/-- Outcome of running a Go function in the model: either a runtime panic
(nil-pointer dereference in a fast-path type switch, or
`reflect.Value.Type` called on the zero `Value`) or a normal return. -/
inductive GoResult (α : Type) where
  | panics : GoResult α
  | ok (a : α) : GoResult α
deriving DecidableEq, Repr

/-- Universe of dynamic (`interface{}`) values the conversion engine is
modelled over.  `p…` constructors are typed pointers, carrying `none` when
the pointer is nil; `v…` constructors are values.  Go `int`/`int32`/`int64`
are carried as unbounded `Int` (no claim exercises width overflow), `byte`,
`uint` and `uintptr` as `Nat`, and both float widths as exact rationals.
`nilIface` is the untyped nil interface; `nilSlice`/`nilMap`/`nilFunc`/
`nilChan` are typed nil values of the remaining nilable kinds.  `vBytes s`
is a non-nil `[]byte` holding the text `s`; `vComplex` is a `complex128`. -/
inductive GoVal where
  | vBool (b : Bool)
  | pBool (p : Option Bool)
  | vInt (n : Int)
  | pInt (p : Option Int)
  | vInt32 (n : Int)
  | pInt32 (p : Option Int)
  | vInt64 (n : Int)
  | pInt64 (p : Option Int)
  | vByte (n : Nat)
  | pByte (p : Option Nat)
  | vFloat64 (q : Rat)
  | pFloat64 (p : Option Rat)
  | vFloat32 (q : Rat)
  | pFloat32 (p : Option Rat)
  | vString (s : String)
  | pString (p : Option String)
  | vUintptr (n : Nat)
  | pUintptr (p : Option Nat)
  | vUint (n : Nat)
  | pUint (p : Option Nat)
  | vComplex (re im : Rat)
  | vBytes (s : String)
  | nilIface
  | nilSlice
  | nilMap
  | nilFunc
  | nilChan
deriving DecidableEq, Repr

open GoVal

/-- Models `kit.IfaceIsNil`: true for the untyped nil interface and for any
pointer/interface/map/slice/func/chan value whose underlying storage is
nil. -/
def IfaceIsNil : GoVal → Bool
  | nilIface | nilSlice | nilMap | nilFunc | nilChan => true
  | pBool none | pInt none | pInt32 none | pInt64 none | pByte none => true
  | pFloat64 none | pFloat32 none | pString none | pUintptr none | pUint none => true
  | _ => false

/-- Go `int64(f)` conversion for a float: truncation toward zero. -/
def truncF (q : Rat) : Int :=
  if q.num < 0 then -((q.num.natAbs / q.den : Nat) : Int) else ((q.num.natAbs / q.den : Nat) : Int)

/-- Models `kit.ToBool`.  The fast-path type switch covers `bool`, `*bool`,
`int`, `*int`, `int32`, `int64`, `byte`, `float64`, `*float64`, `float32`,
`*float32`, `string` and `*string`; a nil pointer of one of those types is
dereferenced there and panics.  Remaining values go through the
`IfaceIsNil` guard and then the reflection switch on the dereferenced
kind (`Uintptr` is outside the `Uint…Uint64` range, so it falls to the
failing default, as does the slice kind). -/
def ToBool : GoVal → GoResult (Bool × Bool)
  | vBool b => .ok (b, true)
  | pBool none => .panics
  | pBool (some b) => .ok (b, true)
  | vInt n => .ok (decide (n ≠ 0), true)
  | pInt none => .panics
  | pInt (some n) => .ok (decide (n ≠ 0), true)
  | vInt32 n => .ok (decide (n ≠ 0), true)
  | vInt64 n => .ok (decide (n ≠ 0), true)
  | vByte n => .ok (decide (n ≠ 0), true)
  | vFloat64 q => .ok (decide (q ≠ 0), true)
  | pFloat64 none => .panics
  | pFloat64 (some q) => .ok (decide (q ≠ 0), true)
  | vFloat32 q => .ok (decide (q ≠ 0), true)
  | pFloat32 none => .panics
  | pFloat32 (some q) => .ok (decide (q ≠ 0), true)
  | vString s =>
    match strconv.ParseBool s with
    | none => .ok (false, false)
    | some r => .ok (r, true)
  | pString none => .panics
  | pString (some s) =>
    match strconv.ParseBool s with
    | none => .ok (false, false)
    | some r => .ok (r, true)
  | pInt32 none | pInt64 none | pByte none | pUintptr none | pUint none => .ok (false, false)
  | nilIface | nilSlice | nilMap | nilFunc | nilChan => .ok (false, false)
  | pInt32 (some n) => .ok (decide (n ≠ 0), true)
  | pInt64 (some n) => .ok (decide (n ≠ 0), true)
  | pByte (some n) => .ok (decide (n ≠ 0), true)
  | vUint n => .ok (decide (n ≠ 0), true)
  | pUint (some n) => .ok (decide (n ≠ 0), true)
  | vUintptr _ | pUintptr (some _) => .ok (false, false)
  | vComplex re _ => .ok (decide (re ≠ 0), true)
  | vBytes _ => .ok (false, false)

/-- Models `kit.ToInt`.  The fast-path type switch covers the full family of
signed/byte/float widths together with their pointer forms (`*bool`, `*int`,
`*int32`, `*int64`, `*byte`, `*float64`, `*float32`, `*string`); any nil
pointer among those is dereferenced and panics.  No model value implements
`ints.Inter`, so the capability probe never fires.  Float sources truncate
toward zero; `Uintptr` and slice kinds fall to the failing default. -/
def ToInt : GoVal → GoResult (Int × Bool)
  | vBool b => .ok (if b then 1 else 0, true)
  | pBool none => .panics
  | pBool (some b) => .ok (if b then 1 else 0, true)
  | vInt n => .ok (n, true)
  | pInt none => .panics
  | pInt (some n) => .ok (n, true)
  | vInt32 n => .ok (n, true)
  | pInt32 none => .panics
  | pInt32 (some n) => .ok (n, true)
  | vInt64 n => .ok (n, true)
  | pInt64 none => .panics
  | pInt64 (some n) => .ok (n, true)
  | vByte n => .ok ((n : Int), true)
  | pByte none => .panics
  | pByte (some n) => .ok ((n : Int), true)
  | vFloat64 q => .ok (truncF q, true)
  | pFloat64 none => .panics
  | pFloat64 (some q) => .ok (truncF q, true)
  | vFloat32 q => .ok (truncF q, true)
  | pFloat32 none => .panics
  | pFloat32 (some q) => .ok (truncF q, true)
  | vString s =>
    match strconv.ParseInt s with
    | none => .ok (0, false)
    | some r => .ok (r, true)
  | pString none => .panics
  | pString (some s) =>
    match strconv.ParseInt s with
    | none => .ok (0, false)
    | some r => .ok (r, true)
  | nilIface | nilSlice | nilMap | nilFunc | nilChan => .ok (0, false)
  | pUintptr none | pUint none => .ok (0, false)
  | vUint n => .ok ((n : Int), true)
  | pUint (some n) => .ok ((n : Int), true)
  | vUintptr _ | pUintptr (some _) => .ok (0, false)
  | vComplex re _ => .ok (truncF re, true)
  | vBytes _ => .ok (0, false)

/-- Models `kit.ToFloat` (conversion to `float64`).  Fast-path coverage is
the same family as `ToInt`; no model value implements `floats.Floater`.
Integer sources convert exactly (the model ignores `float64` mantissa
limits, which no claim exercises). -/
def ToFloat : GoVal → GoResult (Rat × Bool)
  | vBool b => .ok (if b then 1 else 0, true)
  | pBool none => .panics
  | pBool (some b) => .ok (if b then 1 else 0, true)
  | vInt n => .ok ((n : Rat), true)
  | pInt none => .panics
  | pInt (some n) => .ok ((n : Rat), true)
  | vInt32 n => .ok ((n : Rat), true)
  | pInt32 none => .panics
  | pInt32 (some n) => .ok ((n : Rat), true)
  | vInt64 n => .ok ((n : Rat), true)
  | pInt64 none => .panics
  | pInt64 (some n) => .ok ((n : Rat), true)
  | vByte n => .ok ((n : Rat), true)
  | pByte none => .panics
  | pByte (some n) => .ok ((n : Rat), true)
  | vFloat64 q => .ok (q, true)
  | pFloat64 none => .panics
  | pFloat64 (some q) => .ok (q, true)
  | vFloat32 q => .ok (q, true)
  | pFloat32 none => .panics
  | pFloat32 (some q) => .ok (q, true)
  | vString s =>
    match strconv.ParseFloat s with
    | none => .ok (0, false)
    | some r => .ok (r, true)
  | pString none => .panics
  | pString (some s) =>
    match strconv.ParseFloat s with
    | none => .ok (0, false)
    | some r => .ok (r, true)
  | nilIface | nilSlice | nilMap | nilFunc | nilChan => .ok (0, false)
  | pUintptr none | pUint none => .ok (0, false)
  | vUint n => .ok ((n : Rat), true)
  | pUint (some n) => .ok ((n : Rat), true)
  | vUintptr _ | pUintptr (some _) => .ok (0, false)
  | vComplex re _ => .ok (re, true)
  | vBytes _ => .ok (0, false)

/-- Models `kit.ToFloat32`.  Identical structure to `ToFloat`; the
`float64`→`float32` narrowing is the identity in the exact-rational model
(the declared float32 precision loss is not observable here). -/
def ToFloat32 : GoVal → GoResult (Rat × Bool)
  | vBool b => .ok (if b then 1 else 0, true)
  | pBool none => .panics
  | pBool (some b) => .ok (if b then 1 else 0, true)
  | vInt n => .ok ((n : Rat), true)
  | pInt none => .panics
  | pInt (some n) => .ok ((n : Rat), true)
  | vInt32 n => .ok ((n : Rat), true)
  | pInt32 none => .panics
  | pInt32 (some n) => .ok ((n : Rat), true)
  | vInt64 n => .ok ((n : Rat), true)
  | pInt64 none => .panics
  | pInt64 (some n) => .ok ((n : Rat), true)
  | vByte n => .ok ((n : Rat), true)
  | pByte none => .panics
  | pByte (some n) => .ok ((n : Rat), true)
  | vFloat64 q => .ok (q, true)
  | pFloat64 none => .panics
  | pFloat64 (some q) => .ok (q, true)
  | vFloat32 q => .ok (q, true)
  | pFloat32 none => .panics
  | pFloat32 (some q) => .ok (q, true)
  | vString s =>
    match strconv.ParseFloat s with
    | none => .ok (0, false)
    | some r => .ok (r, true)
  | pString none => .panics
  | pString (some s) =>
    match strconv.ParseFloat s with
    | none => .ok (0, false)
    | some r => .ok (r, true)
  | nilIface | nilSlice | nilMap | nilFunc | nilChan => .ok (0, false)
  | pUintptr none | pUint none => .ok (0, false)
  | vUint n => .ok ((n : Rat), true)
  | pUint (some n) => .ok ((n : Rat), true)
  | vUintptr _ | pUintptr (some _) => .ok (0, false)
  | vComplex re _ => .ok (re, true)
  | vBytes _ => .ok (0, false)

/-- Models `kit.ToString`.  The fast-path type switch covers `string`,
`*string`, `bool`, `*bool`, the signed/byte/float families with their
pointer forms, and `uintptr`/`*uintptr` (formatted `%#x`); nil pointers of
those types are dereferenced there and panic.  No model value implements
`fmt.Stringer`, so the capability probe never fires; the `IfaceIsNil` guard
then maps the remaining nil values to the literal text `nil`, and the
reflection switch renders the rest (a `[]byte` slice as its contents). -/
def ToString : GoVal → GoResult String
  | vString s => .ok s
  | pString none => .panics
  | pString (some s) => .ok s
  | vBool b => .ok (strconv.FormatBool b)
  | pBool none => .panics
  | pBool (some b) => .ok (strconv.FormatBool b)
  | vInt n => .ok (strconv.intStr n)
  | pInt none => .panics
  | pInt (some n) => .ok (strconv.intStr n)
  | vInt32 n => .ok (strconv.intStr n)
  | pInt32 none => .panics
  | pInt32 (some n) => .ok (strconv.intStr n)
  | vInt64 n => .ok (strconv.intStr n)
  | pInt64 none => .panics
  | pInt64 (some n) => .ok (strconv.intStr n)
  | vByte n => .ok (strconv.natStr n)
  | pByte none => .panics
  | pByte (some n) => .ok (strconv.natStr n)
  | vFloat64 q => .ok (strconv.formatFloatShortest q)
  | pFloat64 none => .panics
  | pFloat64 (some q) => .ok (strconv.formatFloatShortest q)
  | vFloat32 q => .ok (strconv.formatFloatShortest q)
  | pFloat32 none => .panics
  | pFloat32 (some q) => .ok (strconv.formatFloatShortest q)
  | vUintptr n => .ok (strconv.hex0x n)
  | pUintptr none => .panics
  | pUintptr (some n) => .ok (strconv.hex0x n)
  | nilIface | nilSlice | nilMap | nilFunc | nilChan => .ok "nil"
  | pUint none => .ok "nil"
  | vUint n => .ok (strconv.natStr n)
  | pUint (some n) => .ok (strconv.natStr n)
  | vComplex re im =>
    .ok (strconv.formatFloatShortest re ++ "," ++ strconv.formatFloatShortest im)
  | vBytes s => .ok s

/-- Modelled precision formatting: `strconv.FormatFloat(v, 'G', prec, 64)`
with an explicit significant-digit count, rendered in the same
decimal-scientific shape as `formatFloatShortest` after rounding `q` to
`prec` significant digits (exact when `prec ≤ 0` or `q = 0`).  No claim
constrains the rounded digits themselves, only that this formatting differs
from the shortest-round-trip one exactly on float-kind values. -/
def formatFloatPrec (q : Rat) (prec : Int) : String :=
  if prec ≤ 0 ∨ q = 0 then strconv.formatFloatShortest q
  else
    let n := q.num.natAbs
    let d := q.den
    let e : Int := ((strconv.natDigits n).length : Int) - ((strconv.natDigits d).length : Int)
    let e2 : Int := if n ≥ d * 10 ^ e.toNat ∧ e ≥ 0 then e else e - 1
    let s : Int := prec - 1 - e2
    let q2 : Rat :=
      if s ≥ 0 then (round (q * 10 ^ s.toNat) : Rat) / 10 ^ s.toNat
      else (round (q / 10 ^ (-s).toNat) : Rat) * 10 ^ (-s).toNat
    strconv.formatFloatShortest q2

/-- Models `kit.ToStringPrec`.  Unlike `ToString` it has no fast-path type
switch: the `IfaceIsNil` guard runs first (so every nil input yields the
text `nil`), then the `fmt.Stringer` probe (never fires in the model), then
the reflection switch — which has no `Uintptr` arm, so `uintptr` values
fall to the generic `%v` rendering (decimal). -/
def ToStringPrec (it : GoVal) (prec : Int) : String :=
  match it with
  | nilIface | nilSlice | nilMap | nilFunc | nilChan => "nil"
  | pBool none | pInt none | pInt32 none | pInt64 none | pByte none => "nil"
  | pFloat64 none | pFloat32 none | pString none | pUintptr none | pUint none => "nil"
  | vBool b => strconv.FormatBool b
  | pBool (some b) => strconv.FormatBool b
  | vInt n => strconv.intStr n
  | pInt (some n) => strconv.intStr n
  | vInt32 n => strconv.intStr n
  | pInt32 (some n) => strconv.intStr n
  | vInt64 n => strconv.intStr n
  | pInt64 (some n) => strconv.intStr n
  | vByte n => strconv.natStr n
  | pByte (some n) => strconv.natStr n
  | vFloat64 q => formatFloatPrec q prec
  | pFloat64 (some q) => formatFloatPrec q prec
  | vFloat32 q => formatFloatPrec q prec
  | pFloat32 (some q) => formatFloatPrec q prec
  | vString s => s
  | pString (some s) => s
  | vUintptr n => strconv.natStr n
  | pUintptr (some n) => strconv.natStr n
  | vUint n => strconv.natStr n
  | pUint (some n) => strconv.natStr n
  | vComplex re im => formatFloatPrec re prec ++ "," ++ formatFloatPrec im prec
  | vBytes s => s

/-- Contents of a `SetRobust` destination cell, one constructor per
destination kind covered by the model (`int`, `int64`, `bool`, `float64`,
`string`, `complex128`). -/
inductive DCell where
  | cBool (b : Bool)
  | cInt (n : Int)
  | cInt64 (n : Int)
  | cFloat64 (q : Rat)
  | cString (s : String)
  | cComplex (re im : Rat)
deriving DecidableEq, Repr

/-- A `SetRobust` destination: the `to` argument seen through reflection.
`nilRef` - the destination reference itself is nil (caught by `IfaceIsNil`);
`settable` - `vp.Elem().CanSet()` holds for the referenced location;
`cell` - the referenced location's kind and current contents. -/
structure GoDest where
  nilRef : Bool
  settable : Bool
  cell : DCell
deriving DecidableEq, Repr

/-- Go assignability (`fv.Type().AssignableTo(typ)`) between a source
value's dynamic type and a destination cell's type: in the modelled
universe the types are assignable exactly when identical. -/
def assignable (frm : GoVal) (c : DCell) : Bool :=
  match frm, c with
  | vBool _, .cBool _ => true
  | vInt _, .cInt _ => true
  | vInt64 _, .cInt64 _ => true
  | vFloat64 _, .cFloat64 _ => true
  | vString _, .cString _ => true
  | vComplex _ _, .cComplex _ _ => true
  | _, _ => false

/-- The cell written by the direct-assignment fallback (meaningful only
when `assignable frm c` holds; elsewhere it returns the cell unchanged). -/
def asCell (frm : GoVal) (c : DCell) : DCell :=
  match frm, c with
  | vBool b, .cBool _ => .cBool b
  | vInt n, .cInt _ => .cInt n
  | vInt64 n, .cInt64 _ => .cInt64 n
  | vFloat64 q, .cFloat64 _ => .cFloat64 q
  | vString s, .cString _ => .cString s
  | vComplex re im, .cComplex _ _ => .cComplex re im
  | _, c => c

/-- The tail of `kit.SetRobust` after the kind switch: `reflect.ValueOf(frm)`
followed by the assignability test.  On the untyped nil interface
`reflect.ValueOf` yields the zero `Value` and `.Type()` panics. -/
def fallbackAssign (dst : GoDest) (frm : GoVal) : GoResult (Bool × GoDest) :=
  match frm with
  | nilIface => .panics
  | _ =>
    if assignable frm dst.cell then .ok (true, { dst with cell := asCell frm dst.cell })
    else .ok (false, dst)

/-- Models `kit.SetRobust` for the destination kinds of the model.  The nil
and settability guards run before anything else; then the switch on the
destination kind converts via the matching `To…` chain, falling through to
the direct-assignability fallback when the conversion reports failure — and
the complex-kind case is an empty case body, so complex destinations always
fall through to that fallback.  A panic inside a conversion chain (nil
fast-path pointer in `frm`) propagates. -/
def SetRobust (dst : GoDest) (frm : GoVal) : GoResult (Bool × GoDest) :=
  if dst.nilRef then .ok (false, dst)
  else if !dst.settable then .ok (false, dst)
  else
    match dst.cell with
    | .cBool _ =>
      match ToBool frm with
      | .panics => .panics
      | .ok (b, true) => .ok (true, { dst with cell := .cBool b })
      | .ok (_, false) => fallbackAssign dst frm
    | .cInt _ =>
      match ToInt frm with
      | .panics => .panics
      | .ok (n, true) => .ok (true, { dst with cell := .cInt n })
      | .ok (_, false) => fallbackAssign dst frm
    | .cInt64 _ =>
      match ToInt frm with
      | .panics => .panics
      | .ok (n, true) => .ok (true, { dst with cell := .cInt64 n })
      | .ok (_, false) => fallbackAssign dst frm
    | .cFloat64 _ =>
      match ToFloat frm with
      | .panics => .panics
      | .ok (q, true) => .ok (true, { dst with cell := .cFloat64 q })
      | .ok (_, false) => fallbackAssign dst frm
    | .cString _ =>
      match ToString frm with
      | .panics => .panics
      | .ok s => .ok (true, { dst with cell := .cString s })
    | .cComplex _ _ => fallbackAssign dst frm

end kit

namespace bools

/-- Models `bools.ToFloat32` (float32 embedded as an exact rational). -/
def ToFloat32 (b : Bool) : Rat := if b then 1 else 0

/-- Models `bools.ToFloat64`. -/
def ToFloat64 (b : Bool) : Rat := if b then 1 else 0

/-- Models `bools.ToInt`. -/
def ToInt (b : Bool) : Int := if b then 1 else 0

/-- Models `bools.ToInt32`. -/
def ToInt32 (b : Bool) : Int := if b then 1 else 0

/-- Models `bools.ToInt64`. -/
def ToInt64 (b : Bool) : Int := if b then 1 else 0

/-- Models `bools.ToString`. -/
def ToString (b : Bool) : String := if b then "true" else "false"

/-- Models `bools.FromFloat32`: 0 is false, everything else true. -/
def FromFloat32 (v : Rat) : Bool := if v = 0 then false else true

/-- Models `bools.FromFloat64`. -/
def FromFloat64 (v : Rat) : Bool := if v = 0 then false else true

/-- Models `bools.FromInt`. -/
def FromInt (v : Int) : Bool := if v = 0 then false else true

/-- Models `bools.FromInt32`. -/
def FromInt32 (v : Int) : Bool := if v = 0 then false else true

/-- Models `bools.FromInt64`. -/
def FromInt64 (v : Int) : Bool := if v = 0 then false else true

/-- Models `bools.FromString`: only the exact text `true` is true. -/
def FromString (v : String) : Bool := if v = "true" then true else false

end bools

namespace kit

/-- Modelled from the spec: the external `kit.Types` type-name registry (a
black-box name↔descriptor lookup, not part of the sources under
verification) is an association list from registry-qualified short names to
opaque type descriptors (`Nat`). -/
def Registry := List (String × Nat)

/-- Modelled from the spec: `Types.Type(name)` — look a name up in the
registry. -/
def regLookup (r : Registry) (n : String) : Option Nat :=
  (List.find? (fun p => p.1 = n) r).map (fun p => p.2)

/-- Modelled from the spec: `Types.TypeName(t)` — the registry-qualified
short name of a registered descriptor (arbitrary for unregistered ones). -/
def regName (r : Registry) (t : Nat) : String :=
  ((List.find? (fun p => p.2 = t) r).map (fun p => p.1)).getD ""

/-- Whitespace recognizer for the model of `bytes.TrimSpace` (ASCII
whitespace; registry names contain none). -/
def isSpaceC (c : Char) : Bool := c = ' ' ∨ c = '\t' ∨ c = '\n' ∨ c = '\r'

/-- Models `bytes.TrimSpace` on character lists. -/
def trimSpaceC (cs : List Char) : List Char :=
  ((cs.dropWhile isSpaceC).reverse.dropWhile isSpaceC).reverse

/-- Models `bytes.Trim(b, "\x22")` on character lists: strip leading and
trailing double-quote characters. -/
def trimQuoteC (cs : List Char) : List Char :=
  ((cs.dropWhile (fun c => c = '"')).reverse.dropWhile (fun c => c = '"')).reverse

/-- Models `Type.MarshalJSON`: an absent descriptor serializes to the
literal `null`, a present one to its quoted registry name. -/
def marshalJSONType (r : Registry) (k : Option Nat) : String :=
  match k with
  | none => "null"
  | some t => String.mk ('"' :: (regName r t).data ++ ['"'])

/-- Models `Type.UnmarshalJSON`: `null` loads the absent descriptor;
otherwise the payload is whitespace- and quote-trimmed and looked up in the
registry, a missing name yielding the descriptive error of the source. -/
def unmarshalJSONType (r : Registry) (b : String) : Except String (Option Nat) :=
  if b = "null" then .ok none
  else
    let tn := String.mk (trimQuoteC (trimSpaceC b.data))
    match regLookup r tn with
    | none => .error ("Type UnmarshalJSON: Types type name not found: " ++ tn)
    | some t => .ok (some t)

end kit

namespace kit

/-- Inputs on which `ToStringPrec` is not a plain restatement of
`ToString`: float and complex kinds (precision-controlled formatting),
`uintptr` (hex fast path vs generic decimal) and nil pointers of
`ToString`'s fast-path types (panic vs the text `nil`). -/
def stringPrecExcluded : GoVal → Bool
  | GoVal.vFloat64 _ | GoVal.pFloat64 _ | GoVal.vFloat32 _ | GoVal.pFloat32 _ => true
  | GoVal.vComplex _ _ => true
  | GoVal.vUintptr _ | GoVal.pUintptr _ => true
  | GoVal.pBool none | GoVal.pInt none | GoVal.pInt32 none => true
  | GoVal.pInt64 none | GoVal.pByte none | GoVal.pString none => true
  | _ => false

end kit

namespace strconv

theorem dVal_digitChar {m : Nat} (h : m < 10) : dVal (digitChar m) = m := by
  interval_cases m <;> decide

theorem isDig_digitChar {m : Nat} (h : m < 10) : isDig (digitChar m) = true := by
  interval_cases m <;> decide

theorem digVal_digitChar {m : Nat} (h : m < 10) : digVal (digitChar m) = some m := by
  interval_cases m <;> decide

theorem digitChar_ne_underscore {m : Nat} (h : m < 10) : digitChar m ≠ '_' := by
  interval_cases m <;> decide

theorem digitChar_ne_plus {m : Nat} (h : m < 10) : digitChar m ≠ '+' := by
  interval_cases m <;> decide

theorem digitChar_ne_minus {m : Nat} (h : m < 10) : digitChar m ≠ '-' := by
  interval_cases m <;> decide

theorem digitChar_ne_zero {m : Nat} (h1 : 1 ≤ m) (h2 : m < 10) : digitChar m ≠ '0' := by
  interval_cases m <;> decide

theorem natDigitsF_congr (n : Nat) : ∀ f g, n < f → n < g → natDigitsF f n = natDigitsF g n := by
  induction n using Nat.strong_induction_on with
  | _ n ih =>
    intro f g hf hg
    match f, g with
    | 0, _ => omega
    | _, 0 => omega
    | f' + 1, g' + 1 =>
      simp only [natDigitsF]
      by_cases h : n < 10
      · simp [h]
      · have hdiv : n / 10 < n := Nat.div_lt_self (by omega) (by omega)
        rw [if_neg h, if_neg h,
          ih (n / 10) hdiv f' g' (by omega) (by omega)]

theorem natDigits_def (n : Nat) :
    natDigits n = if n < 10 then [digitChar n] else natDigits (n / 10) ++ [digitChar (n % 10)] := by
  have hunf : natDigits n
      = if n < 10 then [digitChar n] else natDigitsF n (n / 10) ++ [digitChar (n % 10)] := rfl
  by_cases h : n < 10
  · rw [hunf, if_pos h, if_pos h]
  · have hdiv : n / 10 < n := Nat.div_lt_self (by omega) (by omega)
    rw [hunf, if_neg h, if_neg h,
      natDigitsF_congr (n / 10) n (n / 10 + 1) hdiv (by omega)]
    rfl

theorem natDigits_ne_nil (n : Nat) : natDigits n ≠ [] := by
  rw [natDigits_def]
  by_cases h : n < 10 <;> simp [h]

theorem mem_natDigits (n : Nat) : ∀ c ∈ natDigits n, ∃ m, m < 10 ∧ c = digitChar m := by
  induction n using Nat.strong_induction_on with
  | _ n ih =>
    rw [natDigits_def]
    by_cases h : n < 10
    · simp only [if_pos h, List.mem_singleton]
      rintro c rfl
      exact ⟨n, h, rfl⟩
    · simp only [if_neg h, List.mem_append, List.mem_singleton]
      rintro c (hc | rfl)
      · exact ih (n / 10) (Nat.div_lt_self (by omega) (by omega)) c hc
      · exact ⟨n % 10, Nat.mod_lt _ (by omega), rfl⟩

theorem digitsVal_append_single (xs : List Char) (c : Char) :
    digitsVal (xs ++ [c]) = digitsVal xs * 10 + dVal c := by
  simp [digitsVal, List.foldl_append]

theorem digitsVal_natDigits (n : Nat) : digitsVal (natDigits n) = n := by
  induction n using Nat.strong_induction_on with
  | _ n ih =>
    rw [natDigits_def]
    by_cases h : n < 10
    · simp [h, digitsVal, dVal_digitChar h]
    · rw [if_neg h, digitsVal_append_single,
        ih (n / 10) (Nat.div_lt_self (by omega) (by omega)),
        dVal_digitChar (Nat.mod_lt _ (by omega))]
      omega

theorem natDigits_head_ne_zero (n : Nat) (h : 1 ≤ n) :
    ∃ c cs, natDigits n = c :: cs ∧ c ≠ '0' := by
  induction n using Nat.strong_induction_on with
  | _ n ih =>
    rw [natDigits_def]
    by_cases h10 : n < 10
    · exact ⟨digitChar n, [], by simp [h10], digitChar_ne_zero h h10⟩
    · obtain ⟨c, cs, hcs, hc⟩ :=
        ih (n / 10) (Nat.div_lt_self (by omega) (by omega)) (by omega)
      exact ⟨c, cs ++ [digitChar (n % 10)], by simp [h10, hcs], hc⟩

theorem takeWhile_append_cons {p : Char → Bool} {xs : List Char}
    (hx : ∀ c ∈ xs, p c = true) {y : Char} (hy : p y = false) (ys : List Char) :
    (xs ++ y :: ys).takeWhile p = xs := by
  induction xs with
  | nil => simp [List.takeWhile_cons, hy]
  | cons a l ihl =>
    have ha : p a = true := hx a (by simp)
    simp only [List.cons_append, List.takeWhile_cons, ha, if_true]
    rw [ihl (fun c hc => hx c (by simp [hc]))]

theorem dropWhile_append_cons {p : Char → Bool} {xs : List Char}
    (hx : ∀ c ∈ xs, p c = true) {y : Char} (hy : p y = false) (ys : List Char) :
    (xs ++ y :: ys).dropWhile p = y :: ys := by
  induction xs with
  | nil => simp [List.dropWhile_cons, hy]
  | cons a l ihl =>
    have ha : p a = true := hx a (by simp)
    simp only [List.cons_append, List.dropWhile_cons, ha, if_true]
    exact ihl (fun c hc => hx c (by simp [hc]))

theorem takeWhile_all {p : Char → Bool} {xs : List Char}
    (hx : ∀ c ∈ xs, p c = true) : xs.takeWhile p = xs := by
  induction xs with
  | nil => rfl
  | cons a l ihl =>
    have ha : p a = true := hx a (by simp)
    simp only [List.takeWhile_cons, ha, if_true]
    rw [ihl (fun c hc => hx c (by simp [hc]))]

theorem dropWhile_all {p : Char → Bool} {xs : List Char}
    (hx : ∀ c ∈ xs, p c = true) : xs.dropWhile p = [] := by
  induction xs with
  | nil => rfl
  | cons a l ihl =>
    have ha : p a = true := hx a (by simp)
    simp only [List.dropWhile_cons, ha, if_true]
    exact ihl (fun c hc => hx c (by simp [hc]))

theorem puLoop_digits {ds : List Char} (hd : ∀ c ∈ ds, ∃ m, m < 10 ∧ c = digitChar m)
    (a : Nat) (u : Bool) :
    puLoop 10 ds a u = some (ds.foldl (fun n c => n * 10 + dVal c) a, u) := by
  induction ds generalizing a with
  | nil => rfl
  | cons c l ihl =>
    obtain ⟨m, hm, rfl⟩ := hd c (by simp)
    rw [puLoop]
    rw [if_neg (digitChar_ne_underscore hm), digVal_digitChar hm]
    simp only [List.foldl_cons]
    rw [if_neg (by omega), dVal_digitChar hm]
    exact ihl (fun x hx => hd x (by simp [hx])) (a * 10 + m)

theorem detectBase_head_ne_zero {c : Char} (hc : c ≠ '0') (cs : List Char) :
    detectBase (c :: cs) = (10, c :: cs) := by
  simp [detectBase, hc]

theorem parseUintB0_natDigits (n : Nat) (hn : n ≤ 2 ^ 64 - 1) :
    parseUintB0 (natDigits n) = some n := by
  by_cases h0 : n = 0
  · subst h0
    have h : natDigits 0 = ['0'] := by rw [natDigits_def]; simp; rfl
    rw [h]; decide
  · obtain ⟨c, cs, hcons, hc⟩ := natDigits_head_ne_zero n (by omega)
    have hval : digitsVal (natDigits n) = n := digitsVal_natDigits n
    have hpu : puLoop 10 (natDigits n) 0 false = some (n, false) := by
      rw [puLoop_digits (mem_natDigits n) 0 false]
      rw [show (natDigits n).foldl (fun a x => a * 10 + dVal x) 0 = digitsVal (natDigits n) from rfl]
      rw [hval]
    unfold parseUintB0
    rw [if_neg (by rw [hcons]; simp)]
    rw [show detectBase (natDigits n) = (10, natDigits n) by
      rw [hcons]; exact detectBase_head_ne_zero hc cs]
    simp only [hpu]
    rw [if_neg (by omega)]
    simp

theorem splitSign_not_sign {c : Char} (h1 : c ≠ '+') (h2 : c ≠ '-') (cs : List Char) :
    splitSign (c :: cs) = (false, c :: cs) := by
  simp [splitSign, h1, h2]

theorem splitSign_natDigits (n : Nat) : splitSign (natDigits n) = (false, natDigits n) := by
  cases hND : natDigits n with
  | nil => exact absurd hND (natDigits_ne_nil n)
  | cons c cs =>
    obtain ⟨m, hm, rfl⟩ := mem_natDigits n c (by rw [hND]; simp)
    exact splitSign_not_sign (digitChar_ne_plus hm) (digitChar_ne_minus hm) cs

theorem parseIntB0_intChars (n : Int) (h1 : -(2 ^ 63) ≤ n) (h2 : n < 2 ^ 63) :
    parseIntB0 (intChars n) = some n := by
  by_cases hneg : n < 0
  · have hA : n.natAbs ≤ 2 ^ 63 := by omega
    rw [intChars, if_pos hneg]
    unfold parseIntB0
    rw [if_neg (by simp)]
    rw [show splitSign ('-' :: natDigits n.natAbs) = (true, natDigits n.natAbs) from by
      simp [splitSign]]
    simp only [parseUintB0_natDigits n.natAbs (by omega)]
    rw [if_neg (by simp)]
    rw [if_neg (by simp; omega)]
    simp only [if_true]
    congr 1
    omega
  · have hA : n.natAbs < 2 ^ 63 := by omega
    rw [intChars, if_neg hneg]
    unfold parseIntB0
    rw [if_neg (natDigits_ne_nil n.natAbs)]
    rw [splitSign_natDigits]
    simp only [parseUintB0_natDigits n.natAbs (by omega)]
    rw [if_neg (by simp; omega)]
    rw [if_neg (by simp)]
    rw [if_neg (by simp)]
    congr 1
    omega

theorem digitsVal_nil : digitsVal [] = 0 := rfl

theorem natDigits_isEmpty_false (n : Nat) : (natDigits n).isEmpty = false := by
  cases h : natDigits n with
  | nil => exact absurd h (natDigits_ne_nil n)
  | cons c l => rfl

theorem natDigits_isDig (n : Nat) : ∀ c ∈ natDigits n, isDig c = true := by
  intro c hc
  obtain ⟨m, hm, rfl⟩ := mem_natDigits n c hc
  exact isDig_digitChar hm

theorem fracSplit_E (l : List Char) : fracSplit ('E' :: l) = ([], 'E' :: l) := rfl

theorem splitSign_minus (l : List Char) : splitSign ('-' :: l) = (true, l) := by
  simp [splitSign]

theorem splitSign_natDigits_append (m : Nat) (l : List Char) :
    splitSign (natDigits m ++ l) = (false, natDigits m ++ l) := by
  cases hND : natDigits m with
  | nil => exact absurd hND (natDigits_ne_nil m)
  | cons c cs =>
    obtain ⟨d, hd, rfl⟩ := mem_natDigits m c (by rw [hND]; simp)
    exact splitSign_not_sign (digitChar_ne_plus hd) (digitChar_ne_minus hd) (cs ++ l)

theorem parseFloat_shape_pos (M k : Nat) :
    parseFloatChars (natDigits M ++ 'E' :: '-' :: natDigits k)
      = some ((M : Rat) / 10 ^ k) := by
  unfold parseFloatChars
  simp only [splitSign_natDigits_append,
    takeWhile_append_cons (natDigits_isDig M) (by decide : isDig 'E' = false),
    dropWhile_append_cons (natDigits_isDig M) (by decide : isDig 'E' = false),
    fracSplit_E, natDigits_isEmpty_false, List.isEmpty_nil, Bool.and_false,
    Bool.false_and, Bool.if_false_left, List.length_nil, pow_zero, mul_one,
    digitsVal_nil, Nat.add_zero, digitsVal_natDigits, if_false, Bool.false_eq_true,
    splitSign_minus, takeWhile_all (natDigits_isDig k), dropWhile_all (natDigits_isDig k),
    Bool.or_false, Bool.not_true, if_true]
  norm_num

theorem parseFloat_shape_neg (M k : Nat) :
    parseFloatChars ('-' :: (natDigits M ++ 'E' :: '-' :: natDigits k))
      = some (-(M : Rat) / 10 ^ k) := by
  unfold parseFloatChars
  simp only [splitSign_minus,
    takeWhile_append_cons (natDigits_isDig M) (by decide : isDig 'E' = false),
    dropWhile_append_cons (natDigits_isDig M) (by decide : isDig 'E' = false),
    fracSplit_E, natDigits_isEmpty_false, List.isEmpty_nil, Bool.and_false,
    Bool.false_and, Bool.if_false_left, List.length_nil, pow_zero, mul_one,
    digitsVal_nil, Nat.add_zero, digitsVal_natDigits, if_false, Bool.false_eq_true,
    takeWhile_all (natDigits_isDig k), dropWhile_all (natDigits_isDig k),
    Bool.or_false, Bool.not_true, if_true]
  norm_num


theorem parseFloat_floatChars (q : Rat) (hq : q.den ∣ 10 ^ q.den) :
    parseFloatChars (floatChars q) = some q := by
  have hQk : 10 ^ q.den / q.den * q.den = 10 ^ q.den := Nat.div_mul_cancel hq
  have h10 : ((10 : Rat) ^ q.den) ≠ 0 := pow_ne_zero _ (by norm_num)
  have harith : ∀ N : Int, N = q.num * ((10 ^ q.den / q.den : Nat) : Int) →
      (N : Rat) / 10 ^ q.den = q := by
    intro N hN
    have hQkQ : (((10 ^ q.den / q.den : Nat)) : Rat) * (q.den : Rat) = 10 ^ q.den := by
      exact_mod_cast hQk
    rw [div_eq_iff h10, hN]
    have hcast : ((q.num * ((10 ^ q.den / q.den : Nat) : Int) : Int) : Rat)
        = (q.num : Rat) * (((10 ^ q.den / q.den : Nat)) : Rat) := by
      rw [Int.cast_mul, Int.cast_natCast]
    rw [hcast]
    calc (q.num : Rat) * (((10 ^ q.den / q.den : Nat)) : Rat)
        = q * (q.den : Rat) * (((10 ^ q.den / q.den : Nat)) : Rat) := by
          rw [Rat.mul_den_eq_num]
      _ = q * ((((10 ^ q.den / q.den : Nat)) : Rat) * (q.den : Rat)) := by ring
      _ = q * 10 ^ q.den := by rw [hQkQ]
  set N : Int := q.num * ((10 ^ q.den / q.den : Nat) : Int) with hNdef
  by_cases hneg : N < 0
  · have hM : -((N.natAbs : Nat) : Rat) = (N : Rat) := by
      rw [Int.cast_natAbs, Int.cast_abs,
        abs_of_neg (show (N : Rat) < 0 by exact_mod_cast hneg)]
      ring
    rw [show floatChars q = '-' :: (natDigits N.natAbs ++ 'E' :: '-' :: natDigits q.den) from by
      rw [floatChars, intChars, if_pos hneg, ← hNdef]
      rfl]
    rw [parseFloat_shape_neg, hM, harith N rfl]
  · have hM : ((N.natAbs : Nat) : Rat) = (N : Rat) := by
      rw [Int.cast_natAbs, Int.cast_abs,
        abs_of_nonneg (show (0 : Rat) ≤ (N : Rat) by exact_mod_cast not_lt.mp hneg)]
    rw [show floatChars q = natDigits N.natAbs ++ 'E' :: '-' :: natDigits q.den from by
      rw [floatChars, intChars, if_neg hneg, ← hNdef]]
    rw [parseFloat_shape_pos, hM, harith N rfl]

end strconv

namespace kit

open GoVal

/-- Claim C1 (code bug): the spec says every nil/absent input makes ToBool
return (false, false), ToInt (0, false), ToFloat and ToFloat32 (0.0, false),
with no panic.  The untyped nil interface and nil values of
non-fast-path kinds do behave that way, but a typed nil pointer of a
fast-path type — here `(⋆bool)(nil)` — is matched by the fast-path type
switch before the `IfaceIsNil` guard and dereferenced, so all four
conversions panic on it, contradicting the code's own comment that nil
values return `!ok`. -/
theorem claim1_nil_conversions :
    ToBool (pBool none) = .panics
  ∧ ToInt (pBool none) = .panics
  ∧ ToFloat (pBool none) = .panics
  ∧ ToFloat32 (pBool none) = .panics
  ∧ ToBool nilIface = .ok (false, false)
  ∧ ToInt nilIface = .ok (0, false)
  ∧ ToFloat nilIface = .ok (0, false)
  ∧ ToFloat32 nilIface = .ok (0, false)
  ∧ ToBool nilMap = .ok (false, false)
  ∧ ToBool (pInt32 none) = .ok (false, false) :=
  ⟨rfl, rfl, rfl, rfl, rfl, rfl, rfl, rfl, rfl, rfl⟩

/-- Claim C2 (code bug): the spec says ToString and ToStringPrec are total
and return the text `nil` on every nil/absent input.  ToStringPrec is (its
`IfaceIsNil` guard runs first), but ToString's fast-path type switch
dereferences typed nil pointers of fast-path types — `(⋆string)(nil)`,
`(⋆bool)(nil)` — before its nil guard, and panics, contradicting its own
doc comment that it "should definitely work in all cases". -/
theorem claim2_toString_totality :
    ToString (pString none) = .panics
  ∧ ToString (pBool none) = .panics
  ∧ ToString nilIface = .ok "nil"
  ∧ ToString nilSlice = .ok "nil"
  ∧ ToString (pUint none) = .ok "nil"
  ∧ (∀ prec : Int, ToStringPrec (pString none) prec = "nil")
  ∧ (∀ prec : Int, ToStringPrec (pBool none) prec = "nil")
  ∧ (∀ prec : Int, ToStringPrec nilIface prec = "nil") :=
  ⟨rfl, rfl, rfl, rfl, rfl, fun _ => rfl, fun _ => rfl, fun _ => rfl⟩

/-- Claim C3: SetRobust on a destination whose reference is nil or whose
referenced location is not settable returns false and leaves the
destination unchanged, for every source value — both guards run before any
conversion or mutation. -/
theorem claim3_setRobust_unsettable :
    ∀ (d : GoDest) (frm : GoVal), d.nilRef = true ∨ d.settable = false →
      SetRobust d frm = .ok (false, d) := by
  intro d frm h
  rcases h with h | h
  · simp [SetRobust, h]
  · by_cases hn : d.nilRef
    · simp [SetRobust, hn]
    · simp [SetRobust, hn, h]

/-- Witness for C3 at a concrete non-settable integer destination. -/
theorem claim3_setRobust_unsettable_witness :
    SetRobust ⟨false, false, DCell.cInt 0⟩ (vInt 3)
      = .ok (false, ⟨false, false, DCell.cInt 0⟩) :=
  claim3_setRobust_unsettable ⟨false, false, DCell.cInt 0⟩ (vInt 3) (Or.inr rfl)

/-- Claim C5 counterexample: the claim says SetRobust never succeeds on a
settable complex destination.  In fact the complex case of the kind switch
is an empty case body, so control falls through to the direct-assignability
fallback, and a complex128 source is assignable to a complex128
destination: the call assigns it and returns true. -/
theorem claim5_complex_counterexample :
    SetRobust ⟨false, true, DCell.cComplex 0 0⟩ (vComplex 1 2)
      = .ok (true, ⟨false, true, DCell.cComplex 1 2⟩) := rfl

/-- Claim C5 (amended): for a settable complex destination SetRobust
performs no complex conversion; it falls through to the assignability
fallback, succeeding exactly on sources whose type is directly assignable
(a complex value), copying them unchanged, and returning false with no
assignment otherwise.  (An untyped-nil source panics in the fallback's
`reflect.ValueOf(frm).Type()`, hence the hypothesis.) -/
theorem claim5_complex_amended :
    ∀ (a b : Rat) (frm : GoVal), frm ≠ nilIface →
      SetRobust ⟨false, true, DCell.cComplex a b⟩ frm
        = (match frm with
          | vComplex re im => .ok (true, ⟨false, true, DCell.cComplex re im⟩)
          | _ => .ok (false, ⟨false, true, DCell.cComplex a b⟩)) := by
  intro a b frm h
  cases frm <;> simp_all [SetRobust, fallbackAssign, assignable, asCell]

/-- Witness for C5's amended claim at a non-assignable concrete source. -/
theorem claim5_complex_amended_witness :
    SetRobust ⟨false, true, DCell.cComplex 0 0⟩ (vInt 5)
      = .ok (false, ⟨false, true, DCell.cComplex 0 0⟩) :=
  claim5_complex_amended 0 0 (vInt 5) (by decide)

/-- Claim C6 counterexample: the claim says ToStringPrec differs from
ToString only in float (or complex) formatting.  But ToString formats a
`uintptr` through its `%#x` fast path while ToStringPrec has no `uintptr`
reflection arm and falls to the generic `%v` decimal rendering; and on a
typed nil pointer of a fast-path type ToString panics while ToStringPrec
returns `nil`. -/
theorem claim6_prec_counterexample :
    ToString (vUintptr 255) = .ok "0xff"
  ∧ ToStringPrec (vUintptr 255) 6 = "255"
  ∧ ToString (vUintptr 255) ≠ .ok (ToStringPrec (vUintptr 255) 6)
  ∧ ToString (pInt none) = .panics
  ∧ ToStringPrec (pInt none) 6 = "nil" := by
  refine ⟨by decide, by decide, by decide, rfl, rfl⟩

/-- Claim C6 (amended): ToStringPrec agrees exactly with ToString on every
input except float/complex kinds (where the only difference is the
precision-controlled float formatting), `uintptr` values (hex fast path vs
generic decimal) and typed nil pointers of ToString's fast-path types
(panic vs the text `nil`). -/
theorem claim6_prec_amended :
    ∀ (it : GoVal) (prec : Int), stringPrecExcluded it = false →
      ToString it = .ok (ToStringPrec it prec) := by
  intro it prec h
  cases it <;>
    first
      | rfl
      | (rename_i p
         cases p <;> first | rfl | simp [stringPrecExcluded] at h)

/-- Witness for C6's amended claim at a concrete boolean input. -/
theorem claim6_prec_amended_witness :
    stringPrecExcluded (vBool true) = false
  ∧ ToString (vBool true) = .ok (ToStringPrec (vBool true) 6) :=
  ⟨rfl, claim6_prec_amended (vBool true) 6 rfl⟩

/-- Claim C7: ToInt parses string inputs with the base-prefixed
(0x/0b/0o/leading-0-octal/decimal) signed 64-bit grammar of
`strconv.ParseInt(s, 0, 64)`: `0x1F` yields (31, true), and every string
rejected by that grammar — such as `not a number` — yields (0, false)
rather than a panic. -/
theorem claim7_toInt_string :
    ToInt (vString "0x1F") = .ok (31, true)
  ∧ ToInt (vString "not a number") = .ok (0, false)
  ∧ ∀ s : String, strconv.ParseInt s = none → ToInt (vString s) = .ok (0, false) := by
  refine ⟨by decide, by decide, ?_⟩
  intro s h
  simp [ToInt, h]

/-- Witness for C7's universally quantified failure case. -/
theorem claim7_toInt_string_witness :
    ToInt (vString "12z") = .ok (0, false) :=
  claim7_toInt_string.2.2 "12z" (by decide)

/-- Claim C8: ToBool accepts on string inputs exactly the canonical
literals of `strconv.ParseBool` (`1 t T true TRUE True 0 f F false FALSE
False`): `true` yields (true, true) and every other string — such as
`yes` — yields (false, false). -/
theorem claim8_toBool_string :
    ToBool (vString "true") = .ok (true, true)
  ∧ ToBool (vString "yes") = .ok (false, false)
  ∧ ∀ s : String,
      s ∉ ["1", "t", "T", "true", "TRUE", "True", "0", "f", "F", "false", "FALSE", "False"] →
      ToBool (vString s) = .ok (false, false) := by
  refine ⟨by decide, by decide, ?_⟩
  intro s h
  simp only [List.mem_cons, List.not_mem_nil, or_false, not_or] at h
  obtain ⟨h1, h2, h3, h4, h5, h6, h7, h8, h9, h10, h11, h12⟩ := h
  have hp : strconv.ParseBool s = none := by
    simp [strconv.ParseBool, h1, h2, h3, h4, h5, h6, h7, h8, h9, h10, h11, h12]
  simp [ToBool, hp]

/-- Witness for C8's universally quantified rejection case. -/
theorem claim8_toBool_string_witness :
    ToBool (vString "on") = .ok (false, false) :=
  claim8_toBool_string.2.2 "on" (by decide)

end kit

/-- Claim C10: every bools helper round-trips: FromX (ToX b) = b for X in
Float32, Float64, Int, Int32, Int64 and String — the latter even though
FromString maps every string other than the exact lowercase text `true`
(including `True` and `1`) to false. -/
theorem claim10_bools_roundTrip :
    ∀ b : Bool,
      bools.FromFloat32 (bools.ToFloat32 b) = b
    ∧ bools.FromFloat64 (bools.ToFloat64 b) = b
    ∧ bools.FromInt (bools.ToInt b) = b
    ∧ bools.FromInt32 (bools.ToInt32 b) = b
    ∧ bools.FromInt64 (bools.ToInt64 b) = b
    ∧ bools.FromString (bools.ToString b) = b
    ∧ bools.FromString "True" = false
    ∧ bools.FromString "1" = false := by
  intro b
  cases b <;> refine ⟨?_, ?_, ?_, ?_, ?_, ?_, ?_, ?_⟩ <;> decide

namespace kit

open GoVal

/-- Claim C4: for each supported primitive kind — bool, int64, float64,
float32 — formatting a value with ToString and parsing the result back with
the matching conversion recovers the value with success true.  Integers
need the 64-bit range bound (an int64 always satisfies it); floats carry
the hypothesis that the denominator of the exact rational divides a power
of ten, which every binary floating-point value satisfies, and the
float32 narrowing is the identity in the exact model (the declared
precision loss is not observable). -/
theorem claim4_roundTrip :
    (∀ b : Bool,
      ToString (vBool b) = .ok (strconv.FormatBool b)
      ∧ ToBool (vString (strconv.FormatBool b)) = .ok (b, true))
  ∧ (∀ n : Int, -(2 ^ 63) ≤ n → n < 2 ^ 63 →
      ToString (vInt64 n) = .ok (strconv.intStr n)
      ∧ ToInt (vString (strconv.intStr n)) = .ok (n, true))
  ∧ (∀ q : Rat, q.den ∣ 10 ^ q.den →
      ToString (vFloat64 q) = .ok (strconv.formatFloatShortest q)
      ∧ ToFloat (vString (strconv.formatFloatShortest q)) = .ok (q, true))
  ∧ (∀ q : Rat, q.den ∣ 10 ^ q.den →
      ToString (vFloat32 q) = .ok (strconv.formatFloatShortest q)
      ∧ ToFloat32 (vString (strconv.formatFloatShortest q)) = .ok (q, true)) := by
  refine ⟨?_, ?_, ?_, ?_⟩
  · intro b
    exact ⟨rfl, by cases b <;> decide⟩
  · intro n h1 h2
    refine ⟨rfl, ?_⟩
    have hp := strconv.parseIntB0_intChars n h1 h2
    simp [ToInt, strconv.ParseInt, strconv.intStr, hp]
  · intro q hq
    refine ⟨rfl, ?_⟩
    have hp := strconv.parseFloat_floatChars q hq
    simp [ToFloat, strconv.ParseFloat, strconv.formatFloatShortest, hp]
  · intro q hq
    refine ⟨rfl, ?_⟩
    have hp := strconv.parseFloat_floatChars q hq
    simp [ToFloat32, strconv.ParseFloat, strconv.formatFloatShortest, hp]

/-- Witness for C4 at concrete values of each primitive kind. -/
theorem claim4_roundTrip_witness :
    ToBool (vString (strconv.FormatBool true)) = .ok (true, true)
  ∧ ToInt (vString (strconv.intStr 42)) = .ok (42, true)
  ∧ ToFloat (vString (strconv.formatFloatShortest (mkRat 3 2))) = .ok (mkRat 3 2, true)
  ∧ ToFloat32 (vString (strconv.formatFloatShortest (mkRat 3 2))) = .ok (mkRat 3 2, true) :=
  ⟨(claim4_roundTrip.1 true).2,
   (claim4_roundTrip.2.1 42 (by norm_num) (by norm_num)).2,
   (claim4_roundTrip.2.2.1 (mkRat 3 2) (by decide)).2,
   (claim4_roundTrip.2.2.2 (mkRat 3 2) (by decide)).2⟩

/-- Claim C9: for the JSON serialization of the type-descriptor wrapper —
an absent descriptor round-trips to an absent descriptor; a descriptor
registered in the registry (lookup of its name returns it, and its name is
unchanged by quote/whitespace trimming, as every registry-qualified name
is) round-trips to itself under the same registry state; and deserializing
a name missing from the registry returns the source's descriptive error
rather than crashing or defaulting. -/
theorem claim9_type_json :
    (∀ r : Registry, unmarshalJSONType r (marshalJSONType r none) = .ok none)
  ∧ (∀ (r : Registry) (t : Nat), regLookup r (regName r t) = some t →
      trimQuoteC (trimSpaceC ('"' :: (regName r t).data ++ ['"'])) = (regName r t).data →
      unmarshalJSONType r (marshalJSONType r (some t)) = .ok (some t))
  ∧ (∀ (r : Registry) (b : String), b ≠ "null" →
      regLookup r (String.mk (trimQuoteC (trimSpaceC b.data))) = none →
      unmarshalJSONType r b
        = .error ("Type UnmarshalJSON: Types type name not found: "
            ++ String.mk (trimQuoteC (trimSpaceC b.data)))) := by
  refine ⟨fun r => rfl, ?_, ?_⟩
  · intro r t hreg htrim
    have hne : marshalJSONType r (some t) ≠ "null" := by
      intro hEq
      have hdata : ('"' :: (regName r t).data ++ ['"']) = "null".data :=
        congrArg String.data hEq
      rw [show "null".data = ['n', 'u', 'l', 'l'] from rfl] at hdata
      injection hdata with hhead _
      exact absurd hhead (by decide)
    unfold unmarshalJSONType
    rw [if_neg hne]
    show (match regLookup r
        (String.mk (trimQuoteC (trimSpaceC ('"' :: (regName r t).data ++ ['"'])))) with
      | none => Except.error _
      | some t => Except.ok (some t)) = Except.ok (some t)
    rw [htrim]
    show (match regLookup r (regName r t) with
      | none => Except.error _
      | some t => Except.ok (some t)) = Except.ok (some t)
    rw [hreg]
  · intro r b hb hlook
    unfold unmarshalJSONType
    rw [if_neg hb]
    show (match regLookup r (String.mk (trimQuoteC (trimSpaceC b.data))) with
      | none => Except.error ("Type UnmarshalJSON: Types type name not found: "
          ++ String.mk (trimQuoteC (trimSpaceC b.data)))
      | some t => Except.ok (some t)) = _
    rw [hlook]

/-- Witness for C9 with a one-entry concrete registry. -/
theorem claim9_type_json_witness :
    unmarshalJSONType [("ki.Node", 1)] (marshalJSONType [("ki.Node", 1)] (some 1))
      = .ok (some 1)
  ∧ unmarshalJSONType [("ki.Node", 1)] "\"zzz\""
      = .error ("Type UnmarshalJSON: Types type name not found: "
          ++ String.mk (trimQuoteC (trimSpaceC "\"zzz\"".data))) :=
  ⟨claim9_type_json.2.1 [("ki.Node", 1)] 1 (by decide) (by decide),
   claim9_type_json.2.2 [("ki.Node", 1)] "\"zzz\"" (by decide) (by decide)⟩

end kit
